import Mathlib

/-!
# Verification of the noseyparker rule-loading subsystem

A shallow embedding of `crates/noseyparker-rules/src/rules.rs`: the `Rules`
collection and its loading entry points (`from_paths_and_contents`,
`from_paths`, `from_yaml_file`, `from_yaml_files`, `from_directory`), together
with proofs of the specified properties.

Rule records are opaque to this subsystem, so every definition is parametric in
the record type `Rule`. Filesystem effects (classifying a path, reading and
deserializing a YAML file via `util::load_yaml_file`, and the directory walk
performed by the `ignore` crate's walker) are modelled as an abstract oracle
`FS`; the logic of `rules.rs` itself — dispatch, accumulation, error wrapping,
entry filtering, sorting — is translated directly from the source.

Errors: the Rust code returns `anyhow::Result`. We model the distinguishable
error shapes produced in `rules.rs`:
* `LoadError.parse ctx inner` — an underlying load/parse error `inner` wrapped
  with the context string `ctx` built by `with_context` (this is the
  `ParseError` of the spec, and it carries the path inside `ctx`);
* `LoadError.walkErr` — an error yielded by the directory walker (`IoError`);
* `LoadError.invalidInput msg` — the `bail!` for a path that is neither a file
  nor a directory (`InvalidInputError`).
-/

/-- One parsed rule record; its schema is owned by another component, so the
loader is parametric in it. -/
structure Rules (Rule : Type) where
  rules : List Rule
deriving DecidableEq, Repr

/-- Classification of a path by the `is_file` / `is_dir` checks in
`Rules::from_paths`. -/
inductive PathKind where
  | file
  | dir
  | other
deriving DecidableEq, Repr

/-- One entry yielded by the directory walker. `isDir = some b` models
`entry.file_type()` returning a file type whose `is_dir()` is `b`; `none`
models `file_type()` returning `None`. -/
structure DirEntry where
  path : String
  isDir : Option Bool
deriving DecidableEq, Repr

/-- Errors surfaced by the loading functions of `rules.rs`. -/
inductive LoadError where
  | parse (context : String) (inner : String)
  | walkErr (inner : String)
  | invalidInput (message : String)
deriving DecidableEq, Repr

/-- The filesystem oracle: behavior of the external effects invoked by
`rules.rs`. `kind` models the `is_file` / `is_dir` classification;
`loadYamlFile` models `util::load_yaml_file` (reading and deserializing one
file into a record list); `walk` models the entry stream produced by the
configured `ignore` walker rooted at a directory (YAML type filter, symlinks
followed, standard filters disabled — all configuration of the external
walker). -/
structure FS (Rule : Type) where
  kind : String → PathKind
  loadYamlFile : String → Except String (List Rule)
  walk : String → List (Except String DirEntry)

namespace Rules

variable {Rule : Type} {β : Type}

/-- `Rules::new`: the empty collection. -/
def new : Rules Rule :=
  { rules := [] }

/-- `Rules::len`. -/
def len (r : Rules Rule) : Nat :=
  r.rules.length

/-- `Rules::is_empty`. -/
def is_empty (r : Rules Rule) : Bool :=
  r.rules.isEmpty

/-- `impl Extend<Rule> for Rules`: appends the other records in order. -/
def extendWith (r : Rules Rule) (other : Rules Rule) : Rules Rule :=
  { rules := r.rules ++ other.rules }

/-- The loop body of `Rules::from_paths_and_contents`: the accumulator starts
empty and each buffer is parsed (no filesystem access — the parse function is
applied directly to the supplied contents); a parse failure is wrapped with the
pair's logical path and returned at once. -/
def from_paths_and_contents_go (parse : β → Except String (List Rule))
    (acc : Rules Rule) : List (String × β) → Except LoadError (Rules Rule)
  | [] => .ok acc
  | (path, contents) :: rest =>
    match parse contents with
    | .error e => .error (.parse ("Failed to load rules YAML from " ++ path) e)
    | .ok rs => from_paths_and_contents_go parse (acc.extendWith { rules := rs }) rest

/-- `Rules::from_paths_and_contents`, parametric in the pure YAML-buffer
deserializer (`serde_yaml::from_reader` applied to an in-memory buffer). -/
def from_paths_and_contents (parse : β → Except String (List Rule))
    (pairs : List (String × β)) : Except LoadError (Rules Rule) :=
  from_paths_and_contents_go parse new pairs

/-- `Rules::from_yaml_file`: delegates to `util::load_yaml_file` and wraps any
failure with the path context string. -/
def from_yaml_file (fs : FS Rule) (path : String) : Except LoadError (Rules Rule) :=
  match fs.loadYamlFile path with
  | .error e => .error (.parse ("Failed to load rules YAML from " ++ path) e)
  | .ok rs => .ok { rules := rs }

/-- The loop of `Rules::from_yaml_files`: a growing `Vec<Rule>` accumulator,
fail-fast on the first file error. -/
def from_yaml_files_go (fs : FS Rule) (acc : List Rule) :
    List String → Except LoadError (Rules Rule)
  | [] => .ok { rules := acc }
  | p :: rest =>
    match from_yaml_file fs p with
    | .error e => .error e
    | .ok rs => from_yaml_files_go fs (acc ++ rs.rules) rest

/-- `Rules::from_yaml_files`. -/
def from_yaml_files (fs : FS Rule) (paths : List String) : Except LoadError (Rules Rule) :=
  from_yaml_files_go fs [] paths

/-- The filter applied to each walker entry in `Rules::from_directory`:
`entry.file_type().map_or(false, |t| !t.is_dir())`. -/
def keepEntry (e : DirEntry) : Bool :=
  match e.isDir with
  | some d => !d
  | none => false

/-- The entry-collection loop of `Rules::from_directory`: walker errors abort
the walk (`let entry = entry?`); non-directory entries have their paths pushed
in walk order. -/
def walkCollect (acc : List String) :
    List (Except String DirEntry) → Except LoadError (List String)
  | [] => .ok acc
  | .error e :: _ => .error (.walkErr e)
  | .ok ent :: rest =>
    if keepEntry ent then walkCollect (acc ++ [ent.path]) rest
    else walkCollect acc rest

/-- Strict lexicographic comparison of character lists by unicode scalar
value. For valid Unicode this agrees with the byte-wise comparison of the
UTF-8 encodings, which is how `OsStr` path components compare. -/
def charsLt : List Char → List Char → Bool
  | [], [] => false
  | [], _ :: _ => true
  | _ :: _, [] => false
  | a :: as, b :: bs =>
    if a.toNat < b.toNat then true
    else if b.toNat < a.toNat then false
    else charsLt as bs

/-- Splits a path's characters at `/` separators into its components,
modelling `Path::components` on the normalized relative paths the walker
yields (no duplicate or trailing separators). -/
def splitChars : List Char → List (List Char)
  | [] => [[]]
  | c :: rest =>
    if c = '/' then [] :: splitChars rest
    else
      match splitChars rest with
      | [] => [[c]]
      | comp :: comps => (c :: comp) :: comps

/-- Non-strict lexicographic order on component lists: components are
compared in order, a missing component ranks first. -/
def componentsLe : List (List Char) → List (List Char) → Bool
  | [], _ => true
  | _ :: _, [] => false
  | a :: as, b :: bs =>
    if charsLt a b then true
    else if charsLt b a then false
    else componentsLe as bs

/-- The path order used by `yaml_files.sort()`: `PathBuf`'s `Ord` compares
paths lexicographically by component, each component by its bytes. -/
def pathLe (a b : String) : Bool :=
  componentsLe (splitChars a.data) (splitChars b.data)

/-- The propositional form of `pathLe`. -/
def PathLeRel (a b : String) : Prop :=
  pathLe a b = true

instance : DecidableRel PathLeRel := fun a b => by
  unfold PathLeRel
  infer_instance

/-- `yaml_files.sort()`: the discovered files are put in lexicographically
sorted order before loading. `Vec::sort` is a stable sort; since `pathLe` is a
linear order on paths, the sorted permutation of the list is unique, so any
sorting algorithm models it faithfully. -/
def sortPaths (ps : List String) : List String :=
  ps.insertionSort PathLeRel

/-- `Rules::from_directory`: walk the directory, keep non-directory entries,
sort the collected paths, and bulk-load them with `from_yaml_files`. -/
def from_directory (fs : FS Rule) (path : String) : Except LoadError (Rules Rule) :=
  match walkCollect [] (fs.walk path) with
  | .error e => .error e
  | .ok yaml_files => from_yaml_files fs (sortPaths yaml_files)

/-- The `bail!` message of `Rules::from_paths` for an unclassifiable path. -/
def invalidInputMessage (path : String) : String :=
  "Unhandled input type: " ++ path ++ " is neither a file nor directory"

/-- The per-path dispatch of `Rules::from_paths`: file → `from_yaml_file`,
directory → `from_directory`, otherwise `bail!`. -/
def processPath (fs : FS Rule) (p : String) : Except LoadError (Rules Rule) :=
  match fs.kind p with
  | .file => from_yaml_file fs p
  | .dir => from_directory fs p
  | .other => .error (.invalidInput (invalidInputMessage p))

/-- The loop of `Rules::from_paths`: each input path is classified and its
rules merged into the accumulator; any failure is returned at once. -/
def from_paths_go (fs : FS Rule) (acc : Rules Rule) :
    List String → Except LoadError (Rules Rule)
  | [] => .ok acc
  | p :: rest =>
    match processPath fs p with
    | .error e => .error e
    | .ok rs => from_paths_go fs (acc.extendWith rs) rest

/-- `Rules::from_paths`: load rules from paths that may be YAML files or
directories. -/
def from_paths (fs : FS Rule) (paths : List String) : Except LoadError (Rules Rule) :=
  from_paths_go fs new paths

end Rules

/-- The record list produced by a successful load result, `[]` on error. -/
def okList {Rule : Type} : Except String (List Rule) → List Rule
  | .ok rs => rs
  | .error _ => []

/-- The length of the collection returned by a loading call, `0` on error. -/
def lenOf {Rule : Type} : Except LoadError (Rules Rule) → Nat
  | .ok rs => rs.len
  | .error _ => 0

/-- Substring test on character lists (used to state that an error message
names a path or contains a phrase). -/
def listContains (pat : List Char) : List Char → Bool
  | [] => pat.isPrefixOf []
  | c :: rest => pat.isPrefixOf (c :: rest) || listContains pat rest

/-- Substring test on strings. -/
def strContains (pat s : String) : Bool :=
  listContains pat.data s.data

/-- An entry the `from_directory` loop skips without pushing: either the walk
produced it successfully and it is filtered out as a directory. A walk whose
entries all satisfy this discovers no rule files at all. -/
def entrySkipped : Except String DirEntry → Bool
  | .ok dn => !(Rules.keepEntry dn)
  | .error _ => false

/-- Modelled from the spec: the structured-text (YAML) value tree. The
concrete data model lives in the external `serde_yaml` crate and the rule
records' schema is owned by another component, so records are kept as opaque
subtrees here. -/
inductive Yaml where
  | scalar (s : String)
  | arr (xs : List Yaml)
  | mapNode (kvs : List (String × Yaml))

/-- Modelled from the spec: key lookup in a YAML mapping node (first match,
as a deserializer reading fields encounters them). -/
def lookupKey (k : String) : List (String × Yaml) → Option Yaml
  | [] => none
  | (k2, v) :: rest => if k2 = k then some v else lookupKey k rest

/-- Modelled from the spec: the serde-derived deserialization of the `Rules`
envelope — the document root must map to `\x7b rules: [ <record>... ] \x7d`;
the record list is returned in document order; anything else is a schema
violation. -/
def decodeRules : Yaml → Except String (List Yaml)
  | .mapNode kvs =>
    match lookupKey "rules" kvs with
    | some (.arr xs) => .ok xs
    | some _ => .error "invalid type for field rules: expected a sequence"
    | none => .error "missing field rules"
  | _ => .error "invalid type: expected a map"

/-- Modelled from the spec: the serde-derived serialization of the `Rules`
envelope. -/
def encodeRules (rs : List Yaml) : Yaml :=
  .mapNode [("rules", .arr rs)]

/-- A concrete example filesystem over `Rule := Nat`, used to instantiate the
theorems below: `a.yml` is a file with one rule; `d` is a directory whose walk
yields two YAML files (out of sorted order) and the directory itself; `e` is a
directory whose walk yields only directory entries; every other path is
unclassifiable. -/
def exFS : FS Nat where
  kind := fun p => if p = "a.yml" then .file else if p = "d" ∨ p = "e" then .dir else .other
  loadYamlFile := fun p =>
    if p = "a.yml" then .ok [1]
    else if p = "d/api-keys/x.yml" then .ok [2, 3]
    else if p = "d/api/y.yml" then .ok [4]
    else .error "bad yaml"
  walk := fun p =>
    if p = "d" then
      [.ok { path := "d/api-keys/x.yml", isDir := some false },
       .ok { path := "d", isDir := some true },
       .ok { path := "d/api/y.yml", isDir := some false }]
    else if p = "e" then
      [.ok { path := "e", isDir := some true },
       .ok { path := "e/sub", isDir := some true }]
    else []

section Helpers

variable {Rule : Type} {β : Type}

theorem charsLt_trans :
    ∀ as bs cs, Rules.charsLt as bs = true → Rules.charsLt bs cs = true →
      Rules.charsLt as cs = true
  | [], [], _, h1, _ => by simp [Rules.charsLt] at h1
  | [], _ :: _, [], _, h2 => by simp [Rules.charsLt] at h2
  | [], _ :: _, _ :: _, _, _ => by simp [Rules.charsLt]
  | _ :: _, [], _, h1, _ => by simp [Rules.charsLt] at h1
  | _ :: _, _ :: _, [], _, h2 => by simp [Rules.charsLt] at h2
  | a :: as, b :: bs, c :: cs, h1, h2 => by
    simp only [Rules.charsLt] at h1 h2 ⊢
    by_cases hab : a.toNat < b.toNat
    · by_cases hbc : b.toNat < c.toNat
      · have hac : a.toNat < c.toNat := Nat.lt_trans hab hbc
        simp [hac]
      · by_cases hcb : c.toNat < b.toNat
        · simp [hbc, hcb] at h2
        · have hac : a.toNat < c.toNat := by omega
          simp [hac]
    · by_cases hba : b.toNat < a.toNat
      · simp [hab, hba] at h1
      · by_cases hbc : b.toNat < c.toNat
        · have hac : a.toNat < c.toNat := by omega
          simp [hac]
        · by_cases hcb : c.toNat < b.toNat
          · simp [hbc, hcb] at h2
          · have hac : ¬ a.toNat < c.toNat := by omega
            have hca : ¬ c.toNat < a.toNat := by omega
            simp only [hab, hba, if_neg, if_false] at h1
            simp only [hbc, hcb, if_neg, if_false] at h2
            simp only [hac, hca, if_neg, if_false]
            exact charsLt_trans as bs cs h1 h2

theorem charsLt_conn :
    ∀ as bs, Rules.charsLt as bs = false → Rules.charsLt bs as = false → as = bs
  | [], [], _, _ => rfl
  | [], _ :: _, h1, _ => by simp [Rules.charsLt] at h1
  | _ :: _, [], _, h2 => by simp [Rules.charsLt] at h2
  | a :: as, b :: bs, h1, h2 => by
    simp only [Rules.charsLt] at h1 h2
    by_cases hab : a.toNat < b.toNat
    · simp [hab] at h1
    · by_cases hba : b.toNat < a.toNat
      · simp [hba] at h2
      · have hn : a.toNat = b.toNat := by omega
        have hc : a = b := by
          rw [← Char.ofNat_toNat a, ← Char.ofNat_toNat b, hn]
        simp only [hab, hba, if_neg, if_false] at h1 h2
        rw [hc, charsLt_conn as bs h1 h2]

theorem componentsLe_total :
    ∀ as bs, (Rules.componentsLe as bs || Rules.componentsLe bs as) = true
  | [], bs => by simp [Rules.componentsLe]
  | _ :: _, [] => by simp [Rules.componentsLe]
  | a :: as, b :: bs => by
    by_cases h1 : Rules.charsLt a b = true
    · simp [Rules.componentsLe, h1]
    · by_cases h2 : Rules.charsLt b a = true
      · simp [Rules.componentsLe, h1, h2]
      · simpa [Rules.componentsLe, h1, h2] using componentsLe_total as bs

theorem componentsLe_trans :
    ∀ as bs cs, Rules.componentsLe as bs = true → Rules.componentsLe bs cs = true →
      Rules.componentsLe as cs = true
  | [], _, _, _, _ => by simp [Rules.componentsLe]
  | _ :: _, [], _, h1, _ => by simp [Rules.componentsLe] at h1
  | _ :: _, _ :: _, [], _, h2 => by simp [Rules.componentsLe] at h2
  | a :: as, b :: bs, c :: cs, h1, h2 => by
    simp only [Rules.componentsLe] at h1 h2 ⊢
    by_cases hab : Rules.charsLt a b = true
    · by_cases hbc : Rules.charsLt b c = true
      · have hac : Rules.charsLt a c = true := charsLt_trans a b c hab hbc
        simp [hac]
      · by_cases hcb : Rules.charsLt c b = true
        · simp [hbc, hcb] at h2
        · have hbc2 : b = c :=
            charsLt_conn b c (by simpa using hbc) (by simpa using hcb)
          subst hbc2
          simp [hab]
    · by_cases hba : Rules.charsLt b a = true
      · simp [hab, hba] at h1
      · have hab2 : a = b :=
          charsLt_conn a b (by simpa using hab) (by simpa using hba)
        subst hab2
        by_cases hac : Rules.charsLt a c = true
        · simp [hac]
        · by_cases hca : Rules.charsLt c a = true
          · simp [hac, hca] at h2
          · simp only [hab, hba, if_neg, if_false] at h1
            simp only [hac, hca, if_neg, if_false] at h2 ⊢
            exact componentsLe_trans as bs cs h1 h2

theorem pathLeRel_total : ∀ a b : String, Rules.PathLeRel a b ∨ Rules.PathLeRel b a := by
  intro a b
  have h := componentsLe_total (Rules.splitChars a.data) (Rules.splitChars b.data)
  rcases Bool.or_eq_true_iff.mp h with h | h
  · exact Or.inl h
  · exact Or.inr h

theorem pathLeRel_trans :
    ∀ a b c : String, Rules.PathLeRel a b → Rules.PathLeRel b c → Rules.PathLeRel a c := by
  intro a b c h1 h2
  exact componentsLe_trans (Rules.splitChars a.data) (Rules.splitChars b.data)
    (Rules.splitChars c.data) h1 h2

theorem isPrefixOf_append_self : ∀ l t : List Char, l.isPrefixOf (l ++ t) = true
  | [], _ => by simp [List.isPrefixOf]
  | c :: cs, t => by
    simp [List.isPrefixOf, isPrefixOf_append_self cs t]

theorem listContains_middle :
    ∀ (a pat b : List Char), listContains pat (a ++ (pat ++ b)) = true
  | [], pat, b => by
    cases pat with
    | nil => cases b <;> simp [listContains, List.isPrefixOf]
    | cons c cs =>
      have h := isPrefixOf_append_self (c :: cs) b
      simp only [List.nil_append, listContains, List.cons_append] at h ⊢
      simp [h]
  | x :: xs, pat, b => by
    simp [listContains, listContains_middle xs pat b]

theorem strContains_middle (a pat b : String) :
    strContains pat (a ++ pat ++ b) = true := by
  unfold strContains
  have h : (a ++ pat ++ b).data = a.data ++ (pat.data ++ b.data) := by
    simp [String.data_append]
  rw [h]
  exact listContains_middle a.data pat.data b.data

theorem exceptIsOk_exists {ε α : Type} {e : Except ε α} (h : e.isOk = true) :
    ∃ a, e = .ok a := by
  cases e with
  | error _ => simp [Except.isOk, Except.toBool] at h
  | ok a => exact ⟨a, rfl⟩

end Helpers

section LoopLemmas

variable {Rule : Type} {β : Type}

theorem from_paths_and_contents_go_ok (parse : β → Except String (List Rule)) :
    ∀ (pairs : List (String × β)) (acc : Rules Rule),
      (∀ pr ∈ pairs, (parse pr.2).isOk = true) →
      Rules.from_paths_and_contents_go parse acc pairs =
        .ok { rules := acc.rules ++ pairs.flatMap (fun pr => okList (parse pr.2)) }
  | [], acc, _ => by simp [Rules.from_paths_and_contents_go]
  | (p, c) :: rest, acc, h => by
    obtain ⟨rs, hrs⟩ := exceptIsOk_exists (h (p, c) (by simp))
    have ih := from_paths_and_contents_go_ok parse rest (acc.extendWith { rules := rs })
      (fun pr hpr => h pr (by simp [hpr]))
    simp only [Rules.from_paths_and_contents_go, hrs]
    rw [ih]
    simp [Rules.extendWith, okList, hrs, List.append_assoc]

theorem from_paths_and_contents_go_fail (parse : β → Except String (List Rule))
    (p : String) (c : β) (post : List (String × β)) (m : String)
    (hc : parse c = .error m) :
    ∀ (pre : List (String × β)), (∀ pr ∈ pre, (parse pr.2).isOk = true) →
      ∀ acc : Rules Rule,
        Rules.from_paths_and_contents_go parse acc (pre ++ (p, c) :: post) =
          .error (.parse ("Failed to load rules YAML from " ++ p) m)
  | [], _, acc => by simp [Rules.from_paths_and_contents_go, hc]
  | (q, d) :: qs, h, acc => by
    obtain ⟨rs, hrs⟩ := exceptIsOk_exists (h (q, d) (by simp))
    simp only [List.cons_append, Rules.from_paths_and_contents_go, hrs]
    exact from_paths_and_contents_go_fail parse p c post m hc qs
      (fun pr hpr => h pr (by simp [hpr])) (acc.extendWith { rules := rs })

theorem from_yaml_files_go_ok (fs : FS Rule) :
    ∀ (fl : List String) (acc : List Rule),
      (∀ f ∈ fl, (fs.loadYamlFile f).isOk = true) →
      Rules.from_yaml_files_go fs acc fl =
        .ok { rules := acc ++ fl.flatMap (fun f => okList (fs.loadYamlFile f)) }
  | [], acc, _ => by simp [Rules.from_yaml_files_go]
  | f :: rest, acc, h => by
    obtain ⟨rs, hrs⟩ := exceptIsOk_exists (h f (by simp))
    have ih := from_yaml_files_go_ok fs rest (acc ++ rs)
      (fun g hg => h g (by simp [hg]))
    simp only [Rules.from_yaml_files_go, Rules.from_yaml_file, hrs]
    rw [ih]
    simp [okList, hrs, List.append_assoc]

theorem from_paths_go_fail (fs : FS Rule) (p : String) (post : List String) (e : LoadError)
    (hp : Rules.processPath fs p = .error e) :
    ∀ (pre : List String), (∀ q ∈ pre, (Rules.processPath fs q).isOk = true) →
      ∀ acc : Rules Rule, Rules.from_paths_go fs acc (pre ++ p :: post) = .error e
  | [], _, acc => by
    simp only [List.nil_append, Rules.from_paths_go, hp]
  | q :: qs, h, acc => by
    obtain ⟨rs, hrs⟩ := exceptIsOk_exists (h q (by simp))
    simp only [List.cons_append, Rules.from_paths_go, hrs]
    exact from_paths_go_fail fs p post e hp qs
      (fun r hr => h r (by simp [hr])) (acc.extendWith rs)

theorem walkCollect_all_skipped :
    ∀ (entries : List (Except String DirEntry)) (acc : List String),
      (∀ ent ∈ entries, entrySkipped ent = true) →
      Rules.walkCollect acc entries = .ok acc
  | [], _, _ => rfl
  | .error e :: _, acc, h => by
    have := h (.error e) (by simp)
    simp [entrySkipped] at this
  | .ok dn :: rest, acc, h => by
    have hk : Rules.keepEntry dn = false := by
      have := h (.ok dn) (by simp)
      simpa [entrySkipped] using this
    simp only [Rules.walkCollect, hk, Bool.false_eq_true, if_false]
    exact walkCollect_all_skipped rest acc (fun x hx => h x (by simp [hx]))

end LoopLemmas

section Claims

variable {Rule : Type} {β : Type}

/-- C1: if processing any path given to `Rules::from_paths` fails, the call
returns the first encountered error and no rule collection — the rules merged
from the earlier (successful) paths are never observed by the caller. -/
theorem from_paths_fail_fast_first_error (fs : FS Rule) (pre : List String) (p : String)
    (post : List String) (e : LoadError)
    (hpre : ∀ q ∈ pre, (Rules.processPath fs q).isOk = true)
    (hp : Rules.processPath fs p = .error e) :
    Rules.from_paths fs (pre ++ p :: post) = .error e :=
  from_paths_go_fail fs p post e hp pre hpre Rules.new

/-- Witness for C1: a successful file followed by an unclassifiable path and a
directory that would load: the whole call returns the error for the bad path. -/
theorem from_paths_fail_fast_first_error_witness :
    Rules.from_paths exFS (["a.yml"] ++ "nope" :: ["d"]) =
      .error (.invalidInput (Rules.invalidInputMessage "nope")) :=
  from_paths_fail_fast_first_error exFS ["a.yml"] "nope" ["d"]
    (.invalidInput (Rules.invalidInputMessage "nope")) (by decide) (by rfl)

/-- C4 counterexample: the claim quotes the failure message as "neither a file
nor a directory", but the `bail!` in `Rules::from_paths` writes "neither a
file nor directory" (no article): at the concrete unclassifiable path `nope`
the produced message does not contain the quoted phrase. -/
theorem invalid_input_wording_cex :
    Rules.from_paths exFS ["nope"] =
      .error (.invalidInput "Unhandled input type: nope is neither a file nor directory")
    ∧ strContains "neither a file nor a directory"
        "Unhandled input type: nope is neither a file nor directory" = false := by
  constructor
  · rfl
  · decide

/-- C4 (amended): for every input path that is neither a file nor a directory
(after any prefix of successfully processed paths), `Rules::from_paths` fails
with the `bail!` error whose message names the path and states it is "neither
a file nor directory". -/
theorem from_paths_neither_file_nor_directory (fs : FS Rule) (pre : List String)
    (p : String) (post : List String)
    (hpre : ∀ q ∈ pre, (Rules.processPath fs q).isOk = true)
    (hp : fs.kind p = .other) :
    Rules.from_paths fs (pre ++ p :: post) =
      .error (.invalidInput (Rules.invalidInputMessage p))
    ∧ strContains p (Rules.invalidInputMessage p) = true
    ∧ strContains "neither a file nor directory" (Rules.invalidInputMessage p) = true := by
  refine ⟨?_, ?_, ?_⟩
  · have hp2 : Rules.processPath fs p = .error (.invalidInput (Rules.invalidInputMessage p)) := by
      simp [Rules.processPath, hp]
    exact from_paths_go_fail fs p post _ hp2 pre hpre Rules.new
  · exact strContains_middle "Unhandled input type: " p " is neither a file nor directory"
  · show strContains "neither a file nor directory" (Rules.invalidInputMessage p) = true
    unfold strContains Rules.invalidInputMessage
    have h : ("Unhandled input type: " ++ p ++ " is neither a file nor directory").data
        = ("Unhandled input type: ".data ++ p.data ++ " is ".data)
          ++ ("neither a file nor directory".data ++ ([] : List Char)) := by
      simp [String.data_append]
    rw [h]
    exact listContains_middle _ _ _

/-- Witness for C4 (amended): the concrete unclassifiable path `nope`. -/
theorem from_paths_neither_file_nor_directory_witness :
    Rules.from_paths exFS (["a.yml"] ++ "nope" :: []) =
      .error (.invalidInput (Rules.invalidInputMessage "nope"))
    ∧ strContains "nope" (Rules.invalidInputMessage "nope") = true
    ∧ strContains "neither a file nor directory" (Rules.invalidInputMessage "nope") = true :=
  from_paths_neither_file_nor_directory exFS ["a.yml"] "nope" [] (by decide) (by decide)

/-- C6: when the underlying YAML load of a file fails, `Rules::from_yaml_file`
fails with the underlying error wrapped in a context string that carries that
file's path. -/
theorem from_yaml_file_parse_error_names_path (fs : FS Rule) (p m : String)
    (h : fs.loadYamlFile p = .error m) :
    Rules.from_yaml_file fs p =
      .error (.parse ("Failed to load rules YAML from " ++ p) m)
    ∧ strContains p ("Failed to load rules YAML from " ++ p) = true := by
  constructor
  · simp [Rules.from_yaml_file, h]
  · have h2 := strContains_middle "Failed to load rules YAML from " p ""
    simpa using h2

/-- Witness for C6: the file `bad.yml` whose contents fail to deserialize. -/
theorem from_yaml_file_parse_error_names_path_witness :
    Rules.from_yaml_file exFS "bad.yml" =
      .error (.parse ("Failed to load rules YAML from " ++ "bad.yml") "bad yaml")
    ∧ strContains "bad.yml" ("Failed to load rules YAML from " ++ "bad.yml") = true :=
  from_yaml_file_parse_error_names_path exFS "bad.yml" "bad yaml" (by rfl)

/-- C7: `Extend` appends the other collection's records in order, and a
successful `Rules::from_paths_and_contents` returns exactly the concatenation
of each source's records in input order — no deduplication, so listing the
same source twice yields its records twice. -/
theorem merge_appends_in_order_no_dedup :
    (∀ r other : Rules Rule, (r.extendWith other).rules = r.rules ++ other.rules)
    ∧ ∀ (parse : β → Except String (List Rule)) (pairs : List (String × β)),
        (∀ pr ∈ pairs, (parse pr.2).isOk = true) →
        Rules.from_paths_and_contents parse pairs =
          .ok { rules := pairs.flatMap (fun pr => okList (parse pr.2)) } := by
  constructor
  · intro r other
    rfl
  · intro parse pairs h
    have h2 := from_paths_and_contents_go_ok parse pairs Rules.new h
    simpa [Rules.from_paths_and_contents, Rules.new] using h2

/-- Witness for C7: the same (path, buffer) pair listed twice contributes its
record twice. -/
theorem merge_appends_in_order_no_dedup_witness :
    Rules.from_paths_and_contents (fun l : List Nat => Except.ok l)
      [("p", [1]), ("p", [1])] = .ok { rules := [1, 1] } := by
  have h := (@merge_appends_in_order_no_dedup Nat (List Nat)).2
    (fun l : List Nat => Except.ok l) [("p", [1]), ("p", [1])] (by decide)
  simpa [okList] using h

/-- C8: `Rules::from_paths_and_contents` parses the supplied buffers directly
(the definition takes no filesystem, only the pairs and a pure buffer
deserializer); when a buffer fails to parse after a prefix of good buffers,
the error is wrapped with that pair's supplied logical path label. -/
theorem from_paths_and_contents_error_attribution (parse : β → Except String (List Rule))
    (pre : List (String × β)) (p : String) (c : β) (post : List (String × β)) (m : String)
    (hpre : ∀ pr ∈ pre, (parse pr.2).isOk = true)
    (hc : parse c = .error m) :
    Rules.from_paths_and_contents parse (pre ++ (p, c) :: post) =
      .error (.parse ("Failed to load rules YAML from " ++ p) m)
    ∧ strContains p ("Failed to load rules YAML from " ++ p) = true := by
  constructor
  · exact from_paths_and_contents_go_fail parse p c post m hc pre hpre Rules.new
  · have h2 := strContains_middle "Failed to load rules YAML from " p ""
    simpa using h2

/-- Witness for C8: a good buffer followed by a bad buffer under the logical
path `mem:default`. -/
theorem from_paths_and_contents_error_attribution_witness :
    Rules.from_paths_and_contents
      (fun c : Bool => if c then Except.ok ([1] : List Nat) else Except.error "oops")
      ([("ok", true)] ++ ("mem:default", false) :: []) =
      .error (.parse ("Failed to load rules YAML from " ++ "mem:default") "oops")
    ∧ strContains "mem:default" ("Failed to load rules YAML from " ++ "mem:default") = true :=
  from_paths_and_contents_error_attribution
    (fun c : Bool => if c then Except.ok ([1] : List Nat) else Except.error "oops")
    [("ok", true)] "mem:default" false [] "oops" (by decide) (by rfl)

/-- C10: `Rules::is_empty` returns true exactly when `Rules::len` is zero;
both are pure accessors of the stored record list. -/
theorem is_empty_iff_len_eq_zero (r : Rules Rule) :
    r.is_empty = true ↔ r.len = 0 := by
  simp [Rules.is_empty, Rules.len, List.isEmpty_iff, List.length_eq_zero]

/-- C2: when the walk of a directory succeeds, `Rules::from_directory` loads
exactly the discovered files in lexicographically sorted order, so the record
order of the returned collection is the in-order concatenation of each sorted
file's records; `sortPaths files` is sorted under the path order and is a
permutation of the discovered files. Determinism across repeated loads is
immediate: the embedding is a pure function of the filesystem contents. -/
theorem from_directory_lex_sorted_order (fs : FS Rule) (d : String) (files : List String)
    (hw : Rules.walkCollect [] (fs.walk d) = .ok files)
    (hok : ∀ f ∈ Rules.sortPaths files, (fs.loadYamlFile f).isOk = true) :
    Rules.from_directory fs d =
      .ok { rules := (Rules.sortPaths files).flatMap (fun f => okList (fs.loadYamlFile f)) }
    ∧ List.Sorted Rules.PathLeRel (Rules.sortPaths files)
    ∧ (Rules.sortPaths files).Perm files := by
  refine ⟨?_, ?_, ?_⟩
  · simp only [Rules.from_directory, hw]
    simpa [Rules.from_yaml_files] using
      from_yaml_files_go_ok fs (Rules.sortPaths files) [] hok
  · haveI : IsTotal String Rules.PathLeRel := ⟨pathLeRel_total⟩
    haveI : IsTrans String Rules.PathLeRel := ⟨pathLeRel_trans⟩
    exact List.sorted_insertionSort Rules.PathLeRel files
  · exact List.perm_insertionSort Rules.PathLeRel files

/-- Witness for C2: the walk of `d` yields `d/api-keys/x.yml` before
`d/api/y.yml`, yet the load puts `d/api/y.yml`'s records first — the
component-wise path order (where `api` precedes `api-keys`) decides, exactly
as `PathBuf`'s `Ord` would, and unlike a whole-string character comparison. -/
theorem from_directory_lex_sorted_order_witness :
    Rules.from_directory exFS "d" =
      .ok { rules := ((Rules.sortPaths ["d/api-keys/x.yml", "d/api/y.yml"]).flatMap
        (fun f => okList (exFS.loadYamlFile f))) }
    ∧ List.Sorted Rules.PathLeRel (Rules.sortPaths ["d/api-keys/x.yml", "d/api/y.yml"])
    ∧ (Rules.sortPaths ["d/api-keys/x.yml", "d/api/y.yml"]).Perm
        ["d/api-keys/x.yml", "d/api/y.yml"] :=
  from_directory_lex_sorted_order exFS "d" ["d/api-keys/x.yml", "d/api/y.yml"]
    (by rfl) (by decide)

/-- C3: when every discovered file of a directory loads successfully, the
length of the collection returned by `Rules::from_directory` equals the sum of
the lengths of the collections returned by `Rules::from_yaml_file` on each
discovered file. -/
theorem from_directory_len_eq_sum (fs : FS Rule) (d : String) (files : List String)
    (hw : Rules.walkCollect [] (fs.walk d) = .ok files)
    (hok : ∀ f ∈ files, (fs.loadYamlFile f).isOk = true) :
    lenOf (Rules.from_directory fs d) =
      (files.map (fun f => lenOf (Rules.from_yaml_file fs f))).sum := by
  have hperm : (Rules.sortPaths files).Perm files :=
    List.perm_insertionSort Rules.PathLeRel files
  have hok2 : ∀ f ∈ Rules.sortPaths files, (fs.loadYamlFile f).isOk = true :=
    fun f hf => hok f (hperm.mem_iff.mp hf)
  have h1 : Rules.from_directory fs d =
      .ok { rules := (Rules.sortPaths files).flatMap (fun f => okList (fs.loadYamlFile f)) } := by
    simp only [Rules.from_directory, hw]
    simpa [Rules.from_yaml_files] using
      from_yaml_files_go_ok fs (Rules.sortPaths files) [] hok2
  have h2 : ∀ f ∈ files,
      (okList (fs.loadYamlFile f)).length = lenOf (Rules.from_yaml_file fs f) := by
    intro f hf
    obtain ⟨rs, hrs⟩ := exceptIsOk_exists (hok f hf)
    simp [okList, hrs, lenOf, Rules.from_yaml_file, Rules.len]
  rw [h1]
  calc lenOf (Except.ok { rules :=
        (Rules.sortPaths files).flatMap (fun f => okList (fs.loadYamlFile f)) } :
          Except LoadError (Rules Rule))
      = ((Rules.sortPaths files).map
          (fun f => (okList (fs.loadYamlFile f)).length)).sum := by
        simp [lenOf, Rules.len, List.flatMap, List.length_flatten, List.map_map,
          Function.comp_def]
    _ = (files.map (fun f => (okList (fs.loadYamlFile f)).length)).sum :=
        (hperm.map _).sum_eq
    _ = (files.map (fun f => lenOf (Rules.from_yaml_file fs f))).sum := by
        rw [List.map_congr_left h2]

/-- Witness for C3: directory `d` with two discovered files holding two and
one records. -/
theorem from_directory_len_eq_sum_witness :
    lenOf (Rules.from_directory exFS "d") =
      ((["d/api-keys/x.yml", "d/api/y.yml"]).map
        (fun f => lenOf (Rules.from_yaml_file exFS f))).sum :=
  from_directory_len_eq_sum exFS "d" ["d/api-keys/x.yml", "d/api/y.yml"]
    (by rfl) (by decide)

/-- C5: a directory whose walk discovers no rule files (no errors and only
directory-typed entries) loads successfully to the empty collection. -/
theorem from_directory_no_yaml_files_empty (fs : FS Rule) (d : String)
    (h : ∀ ent ∈ fs.walk d, entrySkipped ent = true) :
    Rules.from_directory fs d = .ok (Rules.new : Rules Rule)
    ∧ (Rules.new : Rules Rule).len = 0
    ∧ (Rules.new : Rules Rule).is_empty = true := by
  refine ⟨?_, rfl, rfl⟩
  have hw := walkCollect_all_skipped (fs.walk d) [] h
  simp only [Rules.from_directory, hw]
  rfl

/-- Witness for C5: directory `e`, whose walk yields only directory entries. -/
theorem from_directory_no_yaml_files_empty_witness :
    Rules.from_directory exFS "e" = .ok (Rules.new : Rules Nat)
    ∧ (Rules.new : Rules Nat).len = 0
    ∧ (Rules.new : Rules Nat).is_empty = true :=
  from_directory_no_yaml_files_empty exFS "e" (by decide)

/-- C9: parsing a valid envelope document to its record list and serializing
that list back through the envelope yields a document that parses to the same
record list — record count and per-record content are preserved. -/
theorem envelope_round_trip (y : Yaml) (rs : List Yaml)
    (h : decodeRules y = .ok rs) :
    decodeRules (encodeRules rs) = .ok rs
    ∧ decodeRules (encodeRules rs) = decodeRules y := by
  rw [h]
  constructor <;> simp [decodeRules, encodeRules, lookupKey]

/-- Witness for C9: a one-record document. -/
theorem envelope_round_trip_witness :
    decodeRules (encodeRules [Yaml.scalar "r"]) = .ok [Yaml.scalar "r"]
    ∧ decodeRules (encodeRules [Yaml.scalar "r"]) =
        decodeRules (Yaml.mapNode [("rules", Yaml.arr [Yaml.scalar "r"])]) :=
  envelope_round_trip (Yaml.mapNode [("rules", Yaml.arr [Yaml.scalar "r"])])
    [Yaml.scalar "r"] (by rfl)

end Claims
